import Mathlib

/-!
Verification of `eve/methods/get.py` (document retrieval and response
assembly).  Python dictionaries are embedded as association lists over a
simple JSON-like value type; in-place dictionary mutation is embedded as
functional update, and, for the frame property of the version synthesizer,
as explicit writes on a small heap of dictionaries.  Collaborators that
live outside `src/` (the data layer, `eve.utils`, `eve.versioning`,
event hooks) are parameters of an `Env` structure.
-/

namespace Eve

/-- JSON-like values stored in a document field. -/
inductive Val where
  | vnull : Val
  | vint : Int → Val
  | vstr : String → Val
  | vbool : Bool → Val
  | vobj : List (String × Val) → Val
  | varr : List Val → Val

/-- A Python dict (a document, a lookup, a links object): an association
list from field names to values, first binding wins on lookup. -/
abbrev Doc := List (String × Val)

/-- Dictionary read (`d[k]` / `d.get(k)`): value at the first binding of `k`. -/
def alookup : Doc → String → Option Val
  | [], _ => none
  | (k', v) :: t, k => if k' = k then some v else alookup t k

/-- Dictionary write `d[k] = v`: replaces the first binding of `k` in place,
appends a new binding when `k` is absent (Python insertion-order semantics). -/
def dset : Doc → String → Val → Doc
  | [], k, v => [(k, v)]
  | (k', v') :: t, k, v => if k' = k then (k, v) :: t else (k', v') :: dset t k v

/-- Dictionary delete `del d[k]`: removes the bindings of `k`. -/
def ddel : Doc → String → Doc
  | [], _ => []
  | (k', v') :: t, k => if k' = k then ddel t k else (k', v') :: ddel t k

/-- Dictionary merge `d.update(u)`: sets every binding of `u` in `d`. -/
def dupdate (d : Doc) : Doc → Doc
  | [] => d
  | (k, v) :: t => dupdate (dset d k v) t

mutual

/-- Python `==` on values (structural). -/
def veq : Val → Val → Bool
  | .vnull, .vnull => true
  | .vint a, .vint b => a == b
  | .vstr a, .vstr b => a == b
  | .vbool a, .vbool b => a == b
  | .vobj a, .vobj b => veqObj a b
  | .varr a, .varr b => veqArr a b
  | _, _ => false

/-- Python `==` on dicts, keywise in order. -/
def veqObj : List (String × Val) → List (String × Val) → Bool
  | [], [] => true
  | (k1, v1) :: t1, (k2, v2) :: t2 => k1 == k2 && veq v1 v2 && veqObj t1 t2
  | _, _ => false

/-- Python `==` on lists, elementwise. -/
def veqArr : List Val → List Val → Bool
  | [], [] => true
  | v1 :: t1, v2 :: t2 => veq v1 v2 && veqArr t1 t2
  | _, _ => false

end

/-- Keys of a dict. -/
def dkeys (d : Doc) : List String := d.map Prod.fst

@[simp] theorem dkeys_nil : dkeys [] = [] := rfl

@[simp] theorem dkeys_cons (k₀ : String) (v₀ : Val) (t : Doc) :
    dkeys ((k₀, v₀) :: t) = k₀ :: dkeys t := rfl

@[simp] theorem alookup_nil (k : String) : alookup [] k = none := rfl

theorem alookup_dset (d : Doc) (k k' : String) (v : Val) :
    alookup (dset d k v) k' = if k = k' then some v else alookup d k' := by
  induction d with
  | nil => by_cases h : k = k' <;> simp [dset, alookup, h]
  | cons p t ih =>
    obtain ⟨k₀, v₀⟩ := p
    by_cases h₀ : k₀ = k
    · subst h₀
      by_cases h₁ : k₀ = k' <;> simp [dset, alookup, h₁]
    · by_cases h₁ : k₀ = k'
      · subst h₁
        have hne : ¬ k = k₀ := fun h => h₀ h.symm
        simp [dset, alookup, h₀, hne]
      · simp [dset, alookup, h₀, h₁, ih]

theorem alookup_ddel (d : Doc) (k k' : String) :
    alookup (ddel d k) k' = if k = k' then none else alookup d k' := by
  induction d with
  | nil => by_cases h : k = k' <;> simp [ddel, alookup, h]
  | cons p t ih =>
    obtain ⟨k₀, v₀⟩ := p
    by_cases h₀ : k₀ = k
    · subst h₀
      by_cases h₁ : k₀ = k'
      · subst h₁; simp [ddel, alookup, ih]
      · simp [ddel, alookup, h₁, ih]
    · by_cases h₁ : k₀ = k'
      · subst h₁
        have hne : ¬ k = k₀ := fun h => h₀ h.symm
        simp [ddel, alookup, h₀, hne]
      · simp [ddel, alookup, h₀, h₁, ih]

theorem alookup_eq_none_iff (d : Doc) (k : String) :
    alookup d k = none ↔ k ∉ dkeys d := by
  induction d with
  | nil => simp [alookup]
  | cons p t ih =>
    obtain ⟨k₀, v₀⟩ := p
    by_cases h₀ : k₀ = k
    · subst h₀; simp [alookup]
    · have hne : k ≠ k₀ := fun h => h₀ h.symm
      simp [alookup, h₀, List.mem_cons, ih, hne]

theorem alookup_dupdate (u : Doc) (hu : (dkeys u).Nodup) (d : Doc) (k : String) :
    alookup (dupdate d u) k = (alookup u k).elim (alookup d k) some := by
  revert hu
  induction u generalizing d with
  | nil => intro _; simp [dupdate, alookup]
  | cons p t ih =>
    intro hu
    obtain ⟨k₀, v₀⟩ := p
    rw [dkeys_cons, List.nodup_cons] at hu
    have ih' : ∀ d' : Doc, alookup (dupdate d' t) k = (alookup t k).elim (alookup d' k) some :=
      fun d' => ih d' hu.2
    by_cases h₀ : k₀ = k
    · subst h₀
      have hnone : alookup t k₀ = none := (alookup_eq_none_iff t k₀).mpr hu.1
      simp [dupdate, alookup, ih', hnone, alookup_dset]
    · simp [dupdate, alookup, ih', h₀, alookup_dset, fun h : k = k₀ => h₀ h.symm]

theorem mem_dkeys_dset (d : Doc) (k : String) (v : Val) (k' : String) :
    k' ∈ dkeys (dset d k v) → k' = k ∨ k' ∈ dkeys d := by
  induction d with
  | nil =>
    intro h
    simp [dset] at h
    exact Or.inl h
  | cons p t ih =>
    intro h
    obtain ⟨k₀, v₀⟩ := p
    by_cases h₀ : k₀ = k
    · subst h₀
      simp [dset, List.mem_cons] at h
      rcases h with h | h
      · exact Or.inl h
      · exact Or.inr (by simp [List.mem_cons, h])
    · simp [dset, h₀, List.mem_cons] at h
      rcases h with h | h
      · exact Or.inr (by simp [List.mem_cons, h])
      · rcases ih h with h' | h'
        · exact Or.inl h'
        · exact Or.inr (by simp [List.mem_cons, h'])

theorem dkeys_dset_nodup (d : Doc) (k : String) (v : Val) (hd : (dkeys d).Nodup) :
    (dkeys (dset d k v)).Nodup := by
  induction d with
  | nil => simp [dset]
  | cons p t ih =>
    obtain ⟨k₀, v₀⟩ := p
    rw [dkeys_cons, List.nodup_cons] at hd
    by_cases h₀ : k₀ = k
    · subst h₀
      simpa [dset] using hd
    · simp only [dset, if_neg h₀, dkeys_cons, List.nodup_cons]
      refine ⟨?_, ih hd.2⟩
      intro hmem
      rcases mem_dkeys_dset t k v k₀ hmem with h | h
      · exact h₀ h
      · exact hd.1 h

theorem dkeys_ddel_sublist (d : Doc) (k : String) :
    (dkeys (ddel d k)).Sublist (dkeys d) := by
  induction d with
  | nil => simp [ddel]
  | cons p t ih =>
    obtain ⟨k₀, v₀⟩ := p
    by_cases h₀ : k₀ = k
    · subst h₀
      simp only [ddel, if_pos rfl, dkeys_cons]
      exact ih.trans (List.sublist_cons_self _ _)
    · simp only [ddel, if_neg h₀, dkeys_cons]
      exact ih.cons₂ _

theorem dkeys_ddel_nodup (d : Doc) (k : String) (hd : (dkeys d).Nodup) :
    (dkeys (ddel d k)).Nodup :=
  (dkeys_ddel_sublist d k).nodup hd

/-- Dictionary read for non-`Val` ranges (the schema dict). -/
def alookup' {α : Type} : List (String × α) → String → Option α
  | [], _ => none
  | (k', v) :: t, k => if k' = k then some v else alookup' t k

/-! ### Reserved field names (the default values of the `config` settings). -/

/-- The setting `config.ID_FIELD`. -/
def ID_FIELD : String := "_id"

/-- The setting `config.DATE_CREATED`. -/
def DATE_CREATED : String := "_created"

/-- The setting `config.LAST_UPDATED`. -/
def LAST_UPDATED : String := "_updated"

/-- The setting `config.ETAG`. -/
def ETAG : String := "_etag"

/-- The setting `config.LINKS`. -/
def LINKS : String := "_links"

/-- The setting `config.ITEMS`. -/
def ITEMS : String := "_items"

/-- The setting `config.VERSION`. -/
def VERSION : String := "_version"

/-- The setting `config.VERSIONS` (the suffix of the shadow collection holding deltas). -/
def VERSIONS : String := "_versions"

/-! ### Resource configuration and parsed requests. -/

/-- A `data_relation` entry of a schema field definition.  `embeddable`
is the truthiness of `data_relation.get('embeddable')`. -/
structure DataRel where
  resource : String
  embeddable : Bool

/-- A schema field definition; only the `data_relation` key matters here. -/
structure FieldDef where
  data_relation : Option DataRel

/-- The per-resource entry of `config.DOMAIN`.  `versioned` stands for
`versioned_fields(resource_def)` and `media_fields` for the media fields of
the schema (both helpers live outside `src/`; modelled from the spec:
the set of fields subject to historical tracking, and the media-reference
fields of the schema). -/
structure ResourceDef where
  schema : List (String × FieldDef)
  embedded_fields : List String
  hateoas : Bool
  versioning : Bool
  pagination : Bool
  resource_title : String
  item_title : String
  item_lookup_field : String
  versioned : List String
  media_fields : List String

/-- The relevant fields of `eve.utils.ParsedRequest` (produced by
`parse_request`, which lives outside `src/`).  The raw `embedded` clause is
taken after JSON parsing: `none` when absent, otherwise the parsed dict
(`{"field": 1}`-style). -/
structure PReq where
  if_modified_since : Option Val
  if_none_match : Option Val
  max_results : Nat
  page : Nat
  whereClause : Option String
  sort : Option String
  embedded : Option (List (String × Int))

/-- A response body: either a bare document/dict or a bare list of
documents (Python builds both shapes). -/
inductive Body where
  | obj : Doc → Body
  | arr : List Doc → Body

/-- The result of a GET handler: a normal `(body, last_modified, etag,
status)` tuple, an `abort(code)`, or an uncaught Python error
(`KeyError`/`TypeError` from a missing dict key). -/
inductive GetResult where
  | ok : Body → Option Val → Option Val → Nat → GetResult
  | httpAbort : Nat → GetResult
  | pyError : GetResult

/-- A database cursor: the returned page of documents, the total
`count()`, and the optional `extra` response hook. -/
structure Cursor where
  docs : List Doc
  count : Nat
  extra : Option (Body → Body)

/-- The collaborators of `get.py` that live outside `src/`: global
configuration, the data layer, media storage, `eve.utils` /
`eve.versioning` helpers and the event hooks.  Modelled from the spec
where noted on each field. -/
structure Env where
  /-- Setting `config.IF_MATCH`: conditional matching globally enabled. -/
  if_match : Bool
  /-- Setting `config.DOMAIN`: resource name to resource definition. -/
  domain : String → Option ResourceDef
  /-- Helper `versioned_id_field()`.  Modelled from the spec: the field of a
  delta record referencing the base document's identity. -/
  vid_field : String
  /-- Helper `eve.utils.document_etag`: opaque content-derived token. -/
  document_etag : Doc → Val
  /-- The version number computed by `resolve_document_version`
  (arguments: resource definition, document, mode, latest). -/
  version_value : ResourceDef → Doc → String → Option Doc → Val
  /-- Helper `eve.versioning.diff_document`: opaque structural diff. -/
  diff_document : ResourceDef → Doc → Doc → Doc
  /-- Helper `eve.utils.home_link()`. -/
  home_link : Val
  /-- Helper `eve.utils.resource_uri`. -/
  resource_uri : String → String
  /-- Helper `eve.utils.document_link`. -/
  document_link : String → Val → Val
  /-- Helper `eve.utils.querydef max_results where sort page`. -/
  querydef : Nat → Option String → Option String → Nat → String
  /-- Accessor `app.media.get(ref).read()` composed with base64 encoding: the
  encoded payload, or `none` when the blob is missing. -/
  media_get : Val → Option Val
  /-- Accessor `app.data.find(resource, req, lookup)`. -/
  data_find : String → PReq → Doc → Cursor
  /-- Accessor `app.data.find_one(resource, req?, **lookup)`. -/
  data_find_one : String → Option PReq → Doc → Option Doc
  /-- Accessor `app.data.is_empty(resource)`. -/
  is_empty : String → Bool
  /-- Hook `app.on_fetch_resource` (in-place mutation of the document list). -/
  on_fetch_resource : String → List Doc → List Doc
  /-- Hook `app.on_fetch_resource_<resource>`. -/
  on_fetch_resource_r : String → List Doc → List Doc
  /-- Hook `app.on_fetch_item` (in-place mutation of the document). -/
  on_fetch_item : String → Val → Doc → Doc
  /-- Hook `app.on_fetch_item_<item_title>`. -/
  on_fetch_item_t : String → Val → Doc → Doc

/-! ### `eve.methods.common` date helpers. -/

/-- Helper `epoch()`.  Modelled from the spec: the sentinel "epoch" timestamp. -/
def epochV : Val := Val.vint 0

/-- Helper `eve.methods.common.date_created`.  Modelled from the spec: the
stored creation timestamp, or the epoch default when absent. -/
def date_created (document : Doc) : Val :=
  (alookup document DATE_CREATED).getD epochV

/-- Helper `eve.methods.common.last_updated`.  Modelled from the spec: the
stored modification timestamp, or the epoch default when absent. -/
def last_updated (document : Doc) : Val :=
  (alookup document LAST_UPDATED).getD epochV

/-- Python `<` on two timestamp values. -/
def vlt : Val → Val → Bool
  | Val.vint a, Val.vint b => a < b
  | _, _ => false

/-- Python `<=` on two timestamp values. -/
def vle : Val → Val → Bool
  | Val.vint a, Val.vint b => a ≤ b
  | _, _ => false

/-! ### `_resolve_embedded_fields` (get.py lines 372-418). -/

/-- Is `field` allowed to be embedded?  The filter of
`_resolve_embedded_fields`: the field exists in the schema, has a
`data_relation`, and `data_relation.get('embeddable')` is truthy. -/
def embeddable_field (rd : ResourceDef) (field : String) : Bool :=
  match alookup' rd.schema field with
  | none => false
  | some fd =>
    match fd.data_relation with
    | none => false
    | some dr => dr.embeddable

/-- Function `_resolve_embedded_fields(resource, req)` after JSON parsing of the
clause: fields requested with value 1, unioned (as a Python `set`) with the
resource's default `embedded_fields`, filtered by `embeddable_field`.
Python iterates the set in unspecified order; the model determinizes it as
the concatenation with duplicates removed. -/
def resolve_embedded_fields (rd : ResourceDef) (clause : Option (List (String × Int))) :
    List String :=
  let client : List String :=
    match clause with
    | none => []
    | some c => (c.filter (fun p => p.2 == 1)).map Prod.fst
  (rd.embedded_fields ++ client).dedup.filter (fun f => embeddable_field rd f)

/-! ### `_resolve_embedded_documents` (get.py lines 421-453). -/

/-- Function `_resolve_embedded_documents(document, resource, embedded_fields)`:
for each field, read the schema definition, fetch the referenced document
by `{ID_FIELD: document[field]}` and substitute it when found.  A missing
dict key raises (`none`). -/
def resolve_embedded_documents (env : Env) (rd : ResourceDef) :
    Doc → List String → Option Doc
  | document, [] => some document
  | document, field :: rest =>
    match alookup' rd.schema field with
    | none => none
    | some fd =>
      match fd.data_relation with
      | none => none
      | some dr =>
        match alookup document field with
        | none => none
        | some v =>
          let document' :=
            match env.data_find_one dr.resource none [(ID_FIELD, v)] with
            | some embedded_doc => dset document field (Val.vobj embedded_doc)
            | none => document
          resolve_embedded_documents env rd document' rest

/-! ### `_resolve_media_files` (get.py lines 510-513). -/

/-- Helper `eve.methods.common.resource_media_fields(document, resource)`.
Modelled from the spec: the schema's media fields present in the document. -/
def resource_media_fields (rd : ResourceDef) (document : Doc) : List String :=
  rd.media_fields.filter (fun f => (alookup document f).isSome)

/-- Function `_resolve_media_files(document, resource)`: replace each media field
with the encoded payload, or `None` when the blob is missing. -/
def resolve_media_files (env : Env) (rd : ResourceDef) (document : Doc) : Doc :=
  (resource_media_fields rd document).foldl
    (fun d f =>
      match env.media_get ((alookup d f).getD Val.vnull) with
      | some payload => dset d f payload
      | none => dset d f Val.vnull)
    document

/-! ### `eve.versioning.resolve_document_version` (outside `src/`). -/

/-- Modelled from the spec: "resolve and attach a version number" — for a
versioned resource, attach the version number computed by the collaborator
under `config.VERSION`; a no-op for unversioned resources.  The `mode`
string is `'GET/latest'` or `'GET/other'` exactly as passed by the caller. -/
def resolve_document_version (env : Env) (rd : ResourceDef) (document : Doc)
    (mode : String) (latest : Option Doc) : Doc :=
  if rd.versioning then dset document VERSION (env.version_value rd document mode latest)
  else document

/-! ### `_build_response_document` (get.py lines 311-344). -/

/-- Timestamp stamping, lines 321-322: `document[DATE_CREATED] =
date_created(document); document[LAST_UPDATED] = last_updated(document)`. -/
def stamp_dates (document : Doc) : Doc :=
  let d1 := dset document DATE_CREATED (date_created document)
  dset d1 LAST_UPDATED (last_updated d1)

/-- Function `_build_response_document(document, resource, embedded_fields,
latest_doc)`: stamp dates, attach the ETag when `IF_MATCH`, the self link
when hateoas (`document[item_lookup_field]` may raise), resolve the
version number (`'GET/latest'` vs `'GET/other'`), media files and
embedded documents.  `none` is an uncaught Python error. -/
def build_response_document (env : Env) (resource : String) (rd : ResourceDef)
    (embedded_fields : List String) (document : Doc) (latest_doc : Option Doc) :
    Option Doc :=
  let d2 := stamp_dates document
  let d3 := if env.if_match then dset d2 ETAG (env.document_etag d2) else d2
  match (if rd.hateoas then (alookup d3 rd.item_lookup_field).map some else some none :
      Option (Option Val)) with
  | none => none
  | some lookup_val =>
    let d4 :=
      match lookup_val with
      | some lv => dset d3 LINKS (Val.vobj [("self", env.document_link resource lv)])
      | none => d3
    let d5 :=
      match latest_doc with
      | none => resolve_document_version env rd d4 "GET/latest" none
      | some l => resolve_document_version env rd d4 "GET/other" (some l)
    let d6 := resolve_media_files env rd d5
    resolve_embedded_documents env rd d6 embedded_fields

/-! ### `_synthesize_previous_version` (get.py lines 347-369). -/

/-- The strip loop (lines 361-364): `for field in document: if field in
fields: del old_doc[field]` — iterate the fields of `document`, deleting
the versioned ones from `old_doc`. -/
def strip_versioned (document : Doc) (fields : List String) (old_doc : Doc) : Doc :=
  document.foldl (fun od p => if p.1 ∈ fields then ddel od p.1 else od) old_doc

/-- Function `_synthesize_previous_version(document, delta, resource_def)` as a
value-level function: deep-copy the latest document, re-key the delta's
`versioned_id_field()` to `ID_FIELD`, strip the versioned fields from the
copy and merge the delta into it.  `none` is the KeyError on
`delta[versioned_id_field()]`. -/
def synthesize_previous_version (env : Env) (rd : ResourceDef)
    (document delta : Doc) : Option Doc :=
  let old_doc := document
  match alookup delta env.vid_field with
  | none => none
  | some idv =>
    let delta1 := dset delta ID_FIELD idv
    let delta2 := ddel delta1 env.vid_field
    let old1 := strip_versioned document rd.versioned old_doc
    some (dupdate old1 delta2)

/-- A heap of Python dict objects: contents by address, plus the next
fresh address. -/
structure Heap where
  mem : Nat → Doc
  next : Nat

/-- Write the dict at address `a` in place. -/
def Heap.write (h : Heap) (a : Nat) (d : Doc) : Heap :=
  ⟨fun a' => if a' = a then d else h.mem a', h.next⟩

/-- Allocate a fresh dict (`copy.deepcopy` and dict literals). -/
def Heap.alloc (h : Heap) (d : Doc) : Heap × Nat :=
  (⟨fun a' => if a' = h.next then d else h.mem a', h.next + 1⟩, h.next)

/-- Function `_synthesize_previous_version` with its in-place mutations made
explicit on a heap: `document` and `delta` live at `aDoc` and `aDelta`;
`old_doc = copy.deepcopy(document)` allocates, the delta re-keying
mutates `aDelta`, the strip loop and `old_doc.update(delta)` mutate the
fresh copy.  Returns the final heap and the address of the result. -/
def synthesize_previous_version_heap (env : Env) (rd : ResourceDef)
    (h : Heap) (aDoc aDelta : Nat) : Option (Heap × Nat) :=
  let al := h.alloc (h.mem aDoc)
  let h1 := al.1
  let aOld := al.2
  match alookup (h1.mem aDelta) env.vid_field with
  | none => none
  | some idv =>
    let h2 := h1.write aDelta (dset (h1.mem aDelta) ID_FIELD idv)
    let h3 := h2.write aDelta (ddel (h2.mem aDelta) env.vid_field)
    let h4 := h3.write aOld (strip_versioned (h3.mem aDoc) rd.versioned (h3.mem aOld))
    let h5 := h4.write aOld (dupdate (h4.mem aOld) (h4.mem aDelta))
    some (h5, aOld)

/-! ### `_pagination_links` (get.py lines 456-507). -/

/-- Function `_pagination_links(resource, req, documents_count)`: `parent` and
`self` always; when the count is non-zero and pagination is enabled,
`next` and `last` when a further page exists (`page * max_results <
count`, `last` targeting `int(math.ceil(count / float(max_results)))`),
and `prev` when `page > 1`. -/
def pagination_links (env : Env) (resource : String) (rd : ResourceDef)
    (req : PReq) (documents_count : Nat) : Doc :=
  let links : Doc :=
    [("parent", env.home_link),
     ("self", Val.vobj [("title", Val.vstr rd.resource_title),
                        ("href", Val.vstr (env.resource_uri resource))])]
  if documents_count ≠ 0 ∧ rd.pagination then
    let links1 :=
      if req.page * req.max_results < documents_count then
        let q1 := env.querydef req.max_results req.whereClause req.sort (req.page + 1)
        let l1 := dset links "next"
          (Val.vobj [("title", Val.vstr "next page"),
                     ("href", Val.vstr (env.resource_uri resource ++ q1))])
        let last_page := (Int.ceil ((documents_count : ℚ) / (req.max_results : ℚ))).toNat
        let q2 := env.querydef req.max_results req.whereClause req.sort last_page
        dset l1 "last"
          (Val.vobj [("title", Val.vstr "last page"),
                     ("href", Val.vstr (env.resource_uri resource ++ q2))])
      else links
    if req.page > 1 then
      let q3 := env.querydef req.max_results req.whereClause req.sort (req.page - 1)
      dset links1 "prev"
        (Val.vobj [("title", Val.vstr "previous page"),
                   ("href", Val.vstr (env.resource_uri resource ++ q3))])
    else links1
  else links

/-! ### `getitem` (get.py lines 154-308). -/

/-- String `'[("%s", 1)]' % config.VERSION`: the ascending version sort set in
`diffs` mode. -/
def VERSION_SORT : String := "[(\"_version\", 1)]"

/-- The version-selection block of `getitem` (lines 206-230): decide
between the single (possibly synthesized) document, all-versions mode, an
abort, or an uncaught error. -/
inductive VSel where
  | single : Doc → VSel
  | allVersions : Bool → VSel
  | err : GetResult → VSel

/-- Lines 206-230 of `getitem`: parse `?version=`, synthesize a specific
old version when an integer is requested (`400` on a malformed selector,
`404` on a missing delta). -/
def version_select (env : Env) (rd : ResourceDef) (resource : String)
    (version_param : Option String) (lookup : Doc) (document : Doc) : VSel :=
  if rd.versioning then
    match version_param with
    | none => VSel.single document
    | some v =>
      if v = "all" then VSel.allVersions false
      else if v = "diffs" then VSel.allVersions true
      else
        match v.toInt? with
        | none => VSel.err (GetResult.httpAbort 400)
        | some n =>
          if n ≤ 0 then VSel.err (GetResult.httpAbort 400)
          else
            match alookup lookup ID_FIELD with
            | none => VSel.err GetResult.pyError
            | some idv =>
              let lookup1 :=
                dset (ddel (dset lookup env.vid_field idv) ID_FIELD) VERSION (Val.vint n)
              match env.data_find_one (resource ++ VERSIONS) none lookup1 with
              | none => VSel.err (GetResult.httpAbort 404)
              | some delta =>
                match synthesize_previous_version env rd document delta with
                | none => VSel.err GetResult.pyError
                | some old => VSel.single old
  else VSel.single document

/-- The all-versions loop of `getitem` (lines 262-276): synthesize and
enrich each delta; in `diffs` mode emit the first document as-is and each
later one as `diff_document(resource_def, last_document, document)`. -/
def all_versions_loop (env : Env) (resource : String) (rd : ResourceDef)
    (embedded_fields : List String) (latest_doc : Doc) (isDiffs : Bool) :
    Doc → Nat → List Doc → Option (List Doc)
  | _, _, [] => some []
  | last_document, i, delta :: rest =>
    match synthesize_previous_version env rd latest_doc delta with
    | none => none
    | some d0 =>
      match build_response_document env resource rd embedded_fields d0 (some latest_doc) with
      | none => none
      | some document =>
        let entry :=
          if isDiffs then
            (if i = 0 then document else env.diff_document rd last_document document)
          else document
        let last' := if isDiffs then document else last_document
        match all_versions_loop env resource rd embedded_fields latest_doc isDiffs
            last' (i + 1) rest with
        | none => none
        | some tail => some (entry :: tail)

/-- Lines 297-306 of `getitem`: when hateoas is enabled, add the
`collection` and `parent` links to the response's links object, then
return the `(response, last_modified, etag, 200)` tuple. -/
def getitem_links (env : Env) (rd : ResourceDef) (resource : String)
    (response : Body) (last_modified : Val) (etag : Option Val) : GetResult :=
  if rd.hateoas then
    match response with
    | Body.obj r =>
      let links0 : Option Doc :=
        match alookup r LINKS with
        | none => some []
        | some (Val.vobj m) => some m
        | some _ => none
      match links0 with
      | none => GetResult.pyError
      | some m =>
        let m1 := dset m "collection"
          (Val.vobj [("title", Val.vstr rd.resource_title),
                     ("href", Val.vstr (env.resource_uri resource))])
        let m2 := dset m1 "parent" env.home_link
        GetResult.ok (Body.obj (dset r LINKS (Val.vobj m2))) (some last_modified) etag 200
    | Body.arr _ => GetResult.pyError
  else GetResult.ok response (some last_modified) etag 200

/-- Lines 252-295 of `getitem`: the all-versions envelope, or the
single-document path with its `on_fetch_item` hooks. -/
def getitem_body (env : Env) (rd : ResourceDef) (resource : String) (req : PReq)
    (embedded_fields : List String) (lookup : Doc) (latest_doc : Doc)
    (document : Doc) (last_modified : Val) (etag : Option Val)
    (return_all : Bool) (isDiffs : Bool) : GetResult :=
  if return_all then
    match alookup lookup ID_FIELD with
    | none => GetResult.pyError
    | some idv =>
      let lookup2 := ddel (dset lookup env.vid_field idv) ID_FIELD
      let req2 := if isDiffs then { req with sort := some VERSION_SORT } else req
      let cursor := env.data_find (resource ++ VERSIONS) req2 lookup2
      match all_versions_loop env resource rd embedded_fields latest_doc isDiffs
          [] 0 cursor.docs with
      | none => GetResult.pyError
      | some documents =>
        let response :=
          if rd.hateoas then Body.obj [(ITEMS, Val.varr (documents.map Val.vobj))]
          else Body.arr documents
        getitem_links env rd resource response last_modified etag
  else
    match alookup document ID_FIELD with
    | none => GetResult.pyError
    | some idv =>
      let dA := env.on_fetch_item resource idv document
      match alookup dA ID_FIELD with
      | none => GetResult.pyError
      | some idv2 =>
        let dB := env.on_fetch_item_t rd.item_title idv2 dA
        getitem_links env rd resource (Body.obj dB) last_modified etag

/-- Lines 246-250 of `getitem`: the if-modified-since conditional check;
its 304 branch reads `document[config.ETAG]` unconditionally. -/
def getitem_after_cond (env : Env) (rd : ResourceDef) (resource : String) (req : PReq)
    (embedded_fields : List String) (lookup : Doc) (latest_doc : Doc)
    (document : Doc) (last_modified : Val) (etag : Option Val)
    (return_all : Bool) (isDiffs : Bool) : GetResult :=
  match req.if_modified_since with
  | some t =>
    if vle last_modified t then
      match alookup document ETAG with
      | none => GetResult.pyError
      | some e => GetResult.ok (Body.obj []) (some last_modified) (some e) 304
    else
      getitem_body env rd resource req embedded_fields lookup latest_doc document
        last_modified etag return_all isDiffs
  | none =>
    getitem_body env rd resource req embedded_fields lookup latest_doc document
      last_modified etag return_all isDiffs

/-- Lines 232-250 of `getitem`: enrich the selected document, read its
`LAST_UPDATED`, then run the etag (`If-None-Match`) and
`If-Modified-Since` conditional checks. -/
def getitem_enriched (env : Env) (rd : ResourceDef) (resource : String) (req : PReq)
    (embedded_fields : List String) (lookup : Doc) (latest_doc : Doc)
    (document : Doc) (return_all : Bool) (isDiffs : Bool) : GetResult :=
  match build_response_document env resource rd embedded_fields document (some latest_doc) with
  | none => GetResult.pyError
  | some document1 =>
    match alookup document1 LAST_UPDATED with
    | none => GetResult.pyError
    | some last_modified =>
      if env.if_match then
        match alookup document1 ETAG with
        | none => GetResult.pyError
        | some et =>
          match req.if_none_match with
          | some inm =>
            if veq et inm then
              GetResult.ok (Body.obj []) (some last_modified) (some et) 304
            else
              getitem_after_cond env rd resource req embedded_fields lookup latest_doc
                document1 last_modified (some et) return_all isDiffs
          | none =>
            getitem_after_cond env rd resource req embedded_fields lookup latest_doc
              document1 last_modified (some et) return_all isDiffs
      else
        getitem_after_cond env rd resource req embedded_fields lookup latest_doc
          document1 last_modified none return_all isDiffs

/-- Function `getitem(resource, **lookup)` (lines 154-308).  `version_param` is
`request.args.get(config.VERSION_PARAM)`. -/
def getitem (env : Env) (resource : String) (req : PReq)
    (version_param : Option String) (lookup : Doc) : GetResult :=
  match env.domain resource with
  | none => GetResult.pyError
  | some rd =>
    let embedded_fields := resolve_embedded_fields rd req.embedded
    match env.data_find_one resource (some req) lookup with
    | none => GetResult.httpAbort 404
    | some document0 =>
      let latest_doc := document0
      match version_select env rd resource version_param lookup document0 with
      | VSel.err r => r
      | VSel.allVersions isDiffs =>
        getitem_enriched env rd resource req embedded_fields lookup latest_doc
          document0 true isDiffs
      | VSel.single document =>
        getitem_enriched env rd resource req embedded_fields lookup latest_doc
          document false false

/-! ### `get` (get.py lines 33-148). -/

/-- Enrich every cursor document in order; `none` is the first uncaught
error. -/
def omap (f : Doc → Option Doc) : List Doc → Option (List Doc)
  | [] => some []
  | d :: t =>
    match f d with
    | none => none
    | some d' =>
      match omap f t with
      | none => none
      | some t' => some (d' :: t')

/-- Lines 120-122: track the maximum `LAST_UPDATED` over the enriched
documents, starting from the epoch sentinel. -/
def collect_last_update : List Doc → Val → Option Val
  | [], acc => some acc
  | d :: t, acc =>
    match alookup d LAST_UPDATED with
    | none => none
    | some v => collect_last_update t (if vlt acc v then v else acc)

/-- Lines 111-148 of `get`: clear the modification condition, run the
full query, enrich, aggregate last-modified, run the resource hooks,
assemble the (possibly hateoas) envelope and apply the cursor's `extra`
hook. -/
def get_collection_full (env : Env) (resource : String) (rd : ResourceDef)
    (req : PReq) (lookup : Doc) (embedded_fields : List String) : GetResult :=
  let req2 := { req with if_modified_since := none }
  let cursor := env.data_find resource req2 lookup
  match omap (fun d => build_response_document env resource rd embedded_fields d none)
      cursor.docs with
  | none => GetResult.pyError
  | some documents =>
    match collect_last_update documents epochV with
    | none => GetResult.pyError
    | some last_update =>
      let last_modified := if vlt epochV last_update then some last_update else none
      let documents2 := env.on_fetch_resource_r resource (env.on_fetch_resource resource documents)
      let response :=
        if rd.hateoas then
          Body.obj [(ITEMS, Val.varr (documents2.map Val.vobj)),
                    (LINKS, Val.vobj (pagination_links env resource rd req2 cursor.count))]
        else Body.arr documents2
      let response2 :=
        match cursor.extra with
        | some f => f response
        | none => response
      GetResult.ok response2 last_modified none 200

/-- Function `get(resource, lookup)` (lines 33-148): on an `If-Modified-Since`
request, probe with `max_results = 1`; when the probe matches nothing and
the datasource is not empty, return `304` with no body, no last-modified
and no etag; otherwise run the full request. -/
def get (env : Env) (resource : String) (req : PReq) (lookup : Doc) : GetResult :=
  match env.domain resource with
  | none => GetResult.pyError
  | some rd =>
    let embedded_fields := resolve_embedded_fields rd req.embedded
    match req.if_modified_since with
    | some _ =>
      let preflight := { req with max_results := 1 }
      let cursor := env.data_find resource preflight lookup
      if cursor.count = 0 ∧ env.is_empty resource = false then
        GetResult.ok (Body.obj []) none none 304
      else get_collection_full env resource rd req lookup embedded_fields
    | none => get_collection_full env resource rd req lookup embedded_fields

/-! ### Supporting lemmas. -/

theorem mem_dkeys_of_alookup (d : Doc) (k : String) (v : Val)
    (h : alookup d k = some v) : k ∈ dkeys d := by
  by_contra hm
  rw [(alookup_eq_none_iff d k).mpr hm] at h
  exact Option.noConfusion h

theorem alookup_foldl_setlike (step : Doc → String → Doc)
    (hstep : ∀ d f k, f ≠ k → alookup (step d f) k = alookup d k)
    (l : List String) (k : String) (hk : ∀ f ∈ l, f ≠ k) :
    ∀ d : Doc, alookup (l.foldl step d) k = alookup d k := by
  induction l with
  | nil => intro d; rfl
  | cons f t ih =>
    intro d
    have hf : f ≠ k := hk f (List.mem_cons_self _ _)
    have ht : ∀ f' ∈ t, f' ≠ k := fun f' hm => hk f' (List.mem_cons_of_mem _ hm)
    simp only [List.foldl_cons]
    rw [ih ht, hstep d f k hf]

theorem resolve_media_files_preserves (env : Env) (rd : ResourceDef) (d : Doc)
    (k : String) (hk : k ∉ rd.media_fields) :
    alookup (resolve_media_files env rd d) k = alookup d k := by
  unfold resolve_media_files
  refine alookup_foldl_setlike _ ?_ _ k ?_ d
  · intro d' f k' hne
    cases h : env.media_get ((alookup d' f).getD Val.vnull) with
    | none => simp [h, alookup_dset, fun he : f = k' => hne he]
    | some payload => simp [h, alookup_dset, fun he : f = k' => hne he]
  · intro f hf
    intro he
    subst he
    exact hk (List.mem_of_mem_filter hf)

theorem resolve_embedded_documents_preserves (env : Env) (rd : ResourceDef)
    (fields : List String) (k : String) (hk : ∀ f ∈ fields, f ≠ k) :
    ∀ d out, resolve_embedded_documents env rd d fields = some out →
      alookup out k = alookup d k := by
  induction fields with
  | nil =>
    intro d out h
    simp only [resolve_embedded_documents] at h
    cases h
    rfl
  | cons f t ih =>
    intro d out h
    have hf : f ≠ k := hk f (List.mem_cons_self _ _)
    have ht : ∀ f' ∈ t, f' ≠ k := fun f' hm => hk f' (List.mem_cons_of_mem _ hm)
    cases hs : alookup' rd.schema f with
    | none =>
      simp only [resolve_embedded_documents, hs] at h
      exact Option.noConfusion h
    | some fd =>
      cases hdr : fd.data_relation with
      | none =>
        simp only [resolve_embedded_documents, hs, hdr] at h
        exact Option.noConfusion h
      | some dr =>
        cases hv : alookup d f with
        | none =>
          simp only [resolve_embedded_documents, hs, hdr, hv] at h
          exact Option.noConfusion h
        | some v =>
          cases hfind : env.data_find_one dr.resource none [(ID_FIELD, v)] with
          | none =>
            simp only [resolve_embedded_documents, hs, hdr, hv, hfind] at h
            exact ih ht d out h
          | some ed =>
            simp only [resolve_embedded_documents, hs, hdr, hv, hfind] at h
            rw [ih ht _ out h, alookup_dset]
            simp [fun he : f = k => hf he]

theorem filter_dedup_comm {α : Type} [DecidableEq α] (l : List α) (p : α → Bool) :
    (l.dedup).filter p = (l.filter p).dedup := by
  induction l with
  | nil => rfl
  | cons a t ih =>
    by_cases hm : a ∈ t
    · rw [List.dedup_cons_of_mem hm]
      cases hp : p a
      · rw [List.filter_cons]
        simp only [hp, Bool.false_eq_true, if_false]
        exact ih
      · rw [List.filter_cons]
        simp only [hp, if_true]
        rw [List.dedup_cons_of_mem (List.mem_filter.mpr ⟨hm, hp⟩)]
        exact ih
    · rw [List.dedup_cons_of_not_mem hm, List.filter_cons, List.filter_cons]
      cases hp : p a
      · simp only [hp, Bool.false_eq_true, if_false]
        exact ih
      · simp only [hp, if_true]
        rw [List.dedup_cons_of_not_mem (fun hmem => hm (List.mem_of_mem_filter hmem))]
        rw [ih]

theorem alookup_foldl_strip (fields : List String) (l : Doc) (k : String) :
    ∀ base : Doc,
      alookup (l.foldl (fun od p => if p.1 ∈ fields then ddel od p.1 else od) base) k
        = if k ∈ fields ∧ k ∈ dkeys l then none else alookup base k := by
  induction l with
  | nil => intro base; simp
  | cons p t ih =>
    intro base
    obtain ⟨k₀, v₀⟩ := p
    simp only [List.foldl_cons]
    rw [ih]
    by_cases hkf : k ∈ fields
    · by_cases hkt : k ∈ dkeys t
      · simp [hkf, hkt]
      · by_cases hk0 : k = k₀
        · subst hk0
          simp [hkf, hkt, alookup_ddel]
        · have hne : ¬ k₀ = k := fun he => hk0 he.symm
          by_cases h0f : k₀ ∈ fields <;>
            simp [hkf, hkt, hk0, h0f, alookup_ddel, hne]
    · have hrhs : ¬ (k ∈ fields ∧ k ∈ dkeys ((k₀, v₀) :: t)) := fun hc => hkf hc.1
      by_cases h0f : k₀ ∈ fields
      · have hne : ¬ k₀ = k := fun he => hkf (he ▸ h0f)
        simp [hkf, h0f, alookup_ddel, hne]
      · simp [hkf, h0f]

theorem alookup_strip_self (document : Doc) (fields : List String) (k : String) :
    alookup (strip_versioned document fields document) k =
      if k ∈ fields then none else alookup document k := by
  unfold strip_versioned
  rw [alookup_foldl_strip]
  by_cases hkf : k ∈ fields
  · by_cases hkt : k ∈ dkeys document
    · simp [hkf, hkt]
    · simp [hkf, hkt, (alookup_eq_none_iff document k).mpr hkt]
  · simp [hkf]

/-! ### Concrete instantiations used by counterexamples and witnesses. -/

/-- A minimal resource definition. -/
def baseRd : ResourceDef :=
  { schema := []
    embedded_fields := []
    hateoas := false
    versioning := false
    pagination := false
    resource_title := "People"
    item_title := "person"
    item_lookup_field := ID_FIELD
    versioned := []
    media_fields := [] }

/-- An empty cursor. -/
def emptyCursor : Cursor := { docs := [], count := 0, extra := none }

/-- A concrete environment with simple computable collaborators; the
version-number collaborator records the mode string it was called with. -/
def baseEnv : Env :=
  { if_match := true
    domain := fun _ => some baseRd
    vid_field := "_id_document"
    document_etag := fun d => Val.vint ((dkeys d).length : Int)
    version_value := fun _ _ mode _ => Val.vstr mode
    diff_document := fun _ a b => [("prior", Val.vobj a), ("current", Val.vobj b)]
    home_link := Val.vobj [("title", Val.vstr "home"), ("href", Val.vstr "/")]
    resource_uri := fun r => "/" ++ r
    document_link := fun r _ => Val.vobj [("title", Val.vstr "doc"), ("href", Val.vstr ("/" ++ r))]
    querydef := fun m _ _ p => "?max_results=" ++ toString m ++ "&page=" ++ toString p
    media_get := fun _ => none
    data_find := fun _ _ _ => emptyCursor
    data_find_one := fun _ _ _ => none
    is_empty := fun _ => true
    on_fetch_resource := fun _ l => l
    on_fetch_resource_r := fun _ l => l
    on_fetch_item := fun _ _ d => d
    on_fetch_item_t := fun _ _ d => d }

/-- A request with no conditional headers and default pagination. -/
def baseReq : PReq :=
  { if_modified_since := none
    if_none_match := none
    max_results := 25
    page := 1
    whereClause := none
    sort := none
    embedded := none }

/-- Resource with pagination enabled (C3). -/
def rdC3 : ResourceDef := { baseRd with pagination := true }

/-! ### Claim theorems. -/

/-- Claim C3 counterexample:  Pagination enabled and a non-zero count of 10,
but page 1 with `max_results = 25` is already the last page: the links
object computed by `_pagination_links` carries no `last` link, refuting
"the returned links object contains a `last` link" for that branch. -/
theorem C3_last_link_counterexample :
    rdC3.pagination = true ∧ (10 : Nat) ≠ 0 ∧
      alookup (pagination_links baseEnv "people" rdC3 baseReq 10) "last" = none :=
  ⟨rfl, by decide, rfl⟩

/-- Claim C3 (amended):  When pagination is enabled, `_pagination_links`
includes a `last` link exactly when a further page exists
(`page * max_results < count`); in that case its target page is
`ceil(count / max_results)` computed with rational (real-number) division
before rounding up. -/
theorem C3_last_link (env : Env) (resource : String) (rd : ResourceDef)
    (req : PReq) (documents_count : Nat) (hp : rd.pagination = true) :
    alookup (pagination_links env resource rd req documents_count) "last" =
      if req.page * req.max_results < documents_count then
        some (Val.vobj [("title", Val.vstr "last page"),
          ("href", Val.vstr (env.resource_uri resource ++
            env.querydef req.max_results req.whereClause req.sort
              ((Int.ceil ((documents_count : ℚ) / (req.max_results : ℚ))).toNat)))])
      else none := by
  unfold pagination_links
  by_cases hlt : req.page * req.max_results < documents_count
  · have hc : documents_count ≠ 0 := by
      intro h0
      rw [h0] at hlt
      exact absurd hlt (Nat.not_lt_zero _)
    by_cases hpage : req.page > 1 <;>
      simp [hp, hc, hlt, hpage, alookup_dset, alookup]
  · by_cases hc : documents_count = 0
    · simp [hc, alookup]
    · by_cases hpage : req.page > 1 <;>
        simp [hp, hc, hlt, hpage, alookup_dset, alookup]

/-- C3 witness request: page 2 of 10-document pages. -/
def reqW3 : PReq := { baseReq with max_results := 10, page := 2 }

/-- Claim C3 (amended) witness:  With count 25, `max_results` 10 and page 2
(the spec's own example) the `last` link is present and targets page
`ceil(25/10) = 3`. -/
theorem C3_last_link_witness :
    alookup (pagination_links baseEnv "people" rdC3 reqW3 25) "last" =
      some (Val.vobj [("title", Val.vstr "last page"),
        ("href", Val.vstr "/people?max_results=10&page=3")]) := by
  have hmr : ((reqW3.max_results : ℕ) : ℚ) = 10 := by norm_num [reqW3, baseReq]
  have hc : (⌈((25 : ℕ) : ℚ) / ((reqW3.max_results : ℕ) : ℚ)⌉).toNat = 3 := by
    have h3 : (⌈((25 : ℕ) : ℚ) / ((reqW3.max_results : ℕ) : ℚ)⌉ : ℤ) = 3 := by
      rw [hmr, Int.ceil_eq_iff]
      constructor <;> norm_num
    rw [h3]
    rfl
  rw [C3_last_link baseEnv "people" rdC3 reqW3 25 rfl,
    if_pos (by decide : reqW3.page * reqW3.max_results < 25), hc]
  rfl

/-- Claim C9:  Field-name resolution keeps only schema fields with an
embeddable data relation: requesting an unknown or non-embeddable field
`f` yields exactly the same resolved field list — and hence the same
embedded-document expansion — as not requesting it, with no error. -/
theorem C9_unknown_embedded_field_dropped (rd : ResourceDef) (f : String)
    (clause : List (String × Int)) (hbad : embeddable_field rd f = false) :
    resolve_embedded_fields rd (some ((f, 1) :: clause)) =
      resolve_embedded_fields rd (some clause)
    ∧ ∀ (env : Env) (document : Doc),
        resolve_embedded_documents env rd document
            (resolve_embedded_fields rd (some ((f, 1) :: clause))) =
          resolve_embedded_documents env rd document
            (resolve_embedded_fields rd (some clause)) := by
  have hfields : resolve_embedded_fields rd (some ((f, 1) :: clause)) =
      resolve_embedded_fields rd (some clause) := by
    have h1 : (((f, 1) :: clause).filter (fun p : String × Int => p.2 == 1)).map Prod.fst
        = f :: (clause.filter (fun p : String × Int => p.2 == 1)).map Prod.fst := by
      simp [List.filter_cons]
    simp only [resolve_embedded_fields, h1]
    rw [filter_dedup_comm, filter_dedup_comm, List.filter_append, List.filter_append,
      List.filter_cons]
    simp [hbad]
  exact ⟨hfields, fun env document => by rw [hfields]⟩

/-- Claim C10:  Embedded-document expansion reads `document[field]` without
checking presence: for a schema field with a data relation that is missing
from the document, `_resolve_embedded_documents` raises an uncaught
`KeyError` (modelled as `none`) instead of skipping the field. -/
theorem C10_embedded_expansion_keyerror (env : Env) (rd : ResourceDef)
    (document : Doc) (f : String) (rest : List String) (fd : FieldDef) (dr : DataRel)
    (hschema : alookup' rd.schema f = some fd)
    (hdr : fd.data_relation = some dr)
    (hmiss : alookup document f = none) :
    resolve_embedded_documents env rd document (f :: rest) = none := by
  simp only [resolve_embedded_documents, hschema, hdr, hmiss]

/-- An embeddable relation used by the C9/C10 witnesses. -/
def drW : DataRel := { resource := "people", embeddable := true }

/-- Its field definition. -/
def fdW : FieldDef := { data_relation := some drW }

/-- A resource whose schema declares an embeddable `author` field. -/
def rdW9 : ResourceDef := { baseRd with schema := [("author", fdW)] }

/-- Claim C9 witness:  Adding the unknown field `bogus` to a concrete
embedding clause leaves the resolved field list unchanged. -/
theorem C9_unknown_embedded_field_dropped_witness :
    resolve_embedded_fields rdW9 (some [("bogus", 1), ("author", 1)]) =
      resolve_embedded_fields rdW9 (some [("author", 1)]) :=
  (C9_unknown_embedded_field_dropped rdW9 "bogus" [("author", 1)] rfl).1

/-- Claim C10 witness:  A document lacking the resolved embeddable field
`author` makes expansion raise. -/
theorem C10_embedded_expansion_keyerror_witness :
    resolve_embedded_documents baseEnv rdW9 [(ID_FIELD, Val.vint 1)] ["author"] = none :=
  C10_embedded_expansion_keyerror baseEnv rdW9 [(ID_FIELD, Val.vint 1)] "author" []
    fdW drW rfl rfl rfl

/-- Claim C5:  For a delta whose keys are the versioned-id reference plus
versioned fields only (the documented shape of a delta record), the
synthesized historical document inherits every non-versioned field from
the latest document, carries exactly the delta's values on versioned
fields (absent when absent from the delta), and carries the delta's
re-keyed identity reference under `ID_FIELD`. -/
theorem C5_synthesized_version_contents (env : Env) (rd : ResourceDef)
    (document delta : Doc) (idv : Val)
    (hvid : alookup delta env.vid_field = some idv)
    (hnodup : (dkeys delta).Nodup)
    (hkeys : ∀ k ∈ dkeys delta, k = env.vid_field ∨ k ∈ rd.versioned)
    (hid_nv : ID_FIELD ∉ rd.versioned)
    (hvid_ne : env.vid_field ≠ ID_FIELD)
    (hvid_nv : env.vid_field ∉ rd.versioned) :
    ∀ old, synthesize_previous_version env rd document delta = some old →
      (∀ k, k ∉ rd.versioned → k ≠ ID_FIELD → alookup old k = alookup document k) ∧
      (∀ k ∈ rd.versioned, alookup old k = alookup delta k) ∧
      alookup old ID_FIELD = some idv := by
  intro old h
  simp only [synthesize_previous_version, hvid, Option.some.injEq] at h
  subst h
  have hnodup2 : (dkeys (ddel (dset delta ID_FIELD idv) env.vid_field)).Nodup :=
    dkeys_ddel_nodup _ _ (dkeys_dset_nodup _ _ _ hnodup)
  have hup := alookup_dupdate _ hnodup2 (strip_versioned document rd.versioned document)
  refine ⟨?_, ?_, ?_⟩
  · intro k hknv hkid
    rw [hup k, alookup_ddel]
    by_cases hkv : env.vid_field = k
    · subst hkv
      simp only [if_pos rfl, Option.elim]
      rw [alookup_strip_self]
      simp [hvid_nv]
    · have hdelta : alookup delta k = none := by
        cases halt : alookup delta k with
        | none => rfl
        | some v =>
          exfalso
          rcases hkeys k (mem_dkeys_of_alookup _ _ _ halt) with h' | h'
          · exact hkv h'.symm
          · exact hknv h'
      rw [if_neg hkv, alookup_dset, if_neg (fun he : ID_FIELD = k => hkid he.symm), hdelta]
      simp only [Option.elim]
      rw [alookup_strip_self, if_neg hknv]
  · intro k hkv
    have hkvid : ¬ env.vid_field = k := fun he => hvid_nv (he ▸ hkv)
    have hkid : ¬ ID_FIELD = k := fun he => hid_nv (he ▸ hkv)
    rw [hup k, alookup_ddel, if_neg hkvid, alookup_dset, if_neg hkid]
    cases halt : alookup delta k with
    | none =>
      simp only [Option.elim]
      rw [alookup_strip_self, if_pos hkv]
    | some v => simp [Option.elim]
  · rw [hup ID_FIELD, alookup_ddel, if_neg hvid_ne, alookup_dset, if_pos rfl]
    simp [Option.elim]

/-- Latest document for the C5 witness. -/
def docW5 : Doc :=
  [(ID_FIELD, Val.vint 1), ("name", Val.vstr "current"), ("age", Val.vint 30),
   (LAST_UPDATED, Val.vint 5)]

/-- Delta record for the C5 witness: it records `name` but not the
versioned field `job`. -/
def deltaW5 : Doc := [("_id_document", Val.vint 1), ("name", Val.vstr "old")]

/-- Resource for the C5 witness: `name` and `job` are versioned. -/
def rdW5 : ResourceDef := { baseRd with versioned := ["name", "job"] }

/-- Claim C5 witness:  On concrete data: the versioned `name` takes the
delta's value, the versioned `job` (absent from the delta) is absent, the
non-versioned `age` is inherited from the latest document, and `ID_FIELD`
carries the re-keyed reference. -/
theorem C5_synthesized_version_contents_witness :
    (match synthesize_previous_version baseEnv rdW5 docW5 deltaW5 with
     | some old =>
       alookup old "name" = some (Val.vstr "old") ∧ alookup old "job" = none ∧
       alookup old "age" = some (Val.vint 30) ∧ alookup old ID_FIELD = some (Val.vint 1)
     | none => False) := by
  have hsome : (synthesize_previous_version baseEnv rdW5 docW5 deltaW5).isSome = true := rfl
  cases heq : synthesize_previous_version baseEnv rdW5 docW5 deltaW5 with
  | none => rw [heq] at hsome; exact Bool.noConfusion hsome
  | some old =>
    have h := C5_synthesized_version_contents baseEnv rdW5 docW5 deltaW5 (Val.vint 1)
      rfl (by decide) (by decide) (by decide) (by decide) (by decide) old heq
    refine ⟨?_, ?_, ?_, h.2.2⟩
    · rw [h.2.1 "name" (by decide)]; rfl
    · rw [h.2.1 "job" (by decide)]; rfl
    · rw [h.1 "age" (by decide) (by decide)]; rfl

/-- Claim C6:  The heap embedding of `_synthesize_previous_version` never
mutates the latest-document argument: whenever the call succeeds, the
dict at the document's address is field-for-field identical before and
after the call (the deep copy is a fresh allocation; all writes target
the copy or the delta). -/
theorem C6_synthesize_does_not_mutate_latest (env : Env) (rd : ResourceDef)
    (h : Heap) (aDoc aDelta : Nat)
    (hvalid : aDoc < h.next) (hne : aDoc ≠ aDelta) :
    ∀ h' aOld, synthesize_previous_version_heap env rd h aDoc aDelta = some (h', aOld) →
      h'.mem aDoc = h.mem aDoc := by
  intro h' aOld heq
  have hfresh : aDoc ≠ h.next := Nat.ne_of_lt hvalid
  simp only [synthesize_previous_version_heap, Heap.alloc, Heap.write] at heq
  cases hvid : alookup (if aDelta = h.next then h.mem aDoc else h.mem aDelta) env.vid_field with
  | none => rw [hvid] at heq; exact Option.noConfusion heq
  | some idv =>
    rw [hvid] at heq
    simp only [Option.some.injEq, Prod.mk.injEq] at heq
    obtain ⟨hh, _⟩ := heq
    subst hh
    simp [hne, hfresh]

/-- Heap for the C6 witness: the latest document at address 0, the delta
at address 1. -/
def heapW6 : Heap :=
  { mem := fun a =>
      if a = 0 then [(ID_FIELD, Val.vint 1), ("name", Val.vstr "current")]
      else if a = 1 then [("_id_document", Val.vint 1), ("name", Val.vstr "old")]
      else []
    next := 2 }

/-- Stored document for C1/C2: no stored `_etag` field. -/
def docC1 : Doc := [(ID_FIELD, Val.vint 1), (DATE_CREATED, Val.vint 1), (LAST_UPDATED, Val.vint 5)]

/-- C1 environment: conditional matching (`IF_MATCH`) globally disabled. -/
def envC1 : Env :=
  { baseEnv with if_match := false, data_find_one := fun _ _ _ => some docC1 }

/-- C1 request: an `If-Modified-Since` value at or after the document's
last modification, so the 304 branch of lines 246-250 is taken. -/
def reqC1 : PReq := { baseReq with if_modified_since := some (Val.vint 9) }

/-- Claim C1:  With `IF_MATCH` disabled, the item-fetch 304 branch
triggered by an if-modified-since match evaluates `document[config.ETAG]`
(get.py line 250) on a document that carries no ETag — enrichment did not
add one — so the request dies with an uncaught `KeyError` instead of
returning a 304 without an ETag as the spec (and the function's own
docstring, "When IF_MATCH is disabled, no etag is included in the
payload") describe. -/
theorem C1_ims_304_reads_missing_etag :
    getitem envC1 "people" reqC1 none [(ID_FIELD, Val.vint 1)] = GetResult.pyError := by
  rfl

/-- C2 resource: versioning enabled. -/
def rdC2 : ResourceDef := { baseRd with versioning := true }

/-- C2 environment: the version-number collaborator of `baseEnv` records
the mode string `resolve_document_version` is called with. -/
def envC2 : Env :=
  { baseEnv with if_match := false
                 domain := fun _ => some rdC2
                 data_find_one := fun _ _ _ => some docC1 }

/-- Claim C2 counterexample:  An item fetch with no `?version=` selector
synthesizes no historical version, yet enrichment records mode
`GET/other`: `getitem` passes the deep-copied latest document to
`_build_response_document` unconditionally (line 232), so the claim's
"latest mode whenever no historical version was synthesized" fails. -/
theorem C2_version_mode_counterexample :
    (match getitem envC2 "people" baseReq none [(ID_FIELD, Val.vint 1)] with
     | GetResult.ok (Body.obj b) _ _ 200 => alookup b VERSION
     | _ => none) = some (Val.vstr "GET/other") := by
  rfl

/-- Claim C4:  For a collection fetch carrying an if-modified-since
condition whose probe (capped at one result) matches zero documents: on a
non-empty collection the handler returns 304 with empty body, null
last-modified and null etag — for any datasource, so without depending on
the full query; on an empty collection it instead behaves exactly like
the same request with the condition cleared, which (when it returns at
all) returns status 200 with a null etag. -/
theorem get_collection_full_status (env : Env) (resource : String) (rd : ResourceDef)
    (req : PReq) (lookup : Doc) (ef : List String) :
    ∀ b lm et s, get_collection_full env resource rd req lookup ef = GetResult.ok b lm et s →
      s = 200 ∧ et = none := by
  intro b lm et s h
  simp only [get_collection_full] at h
  cases homap : omap (fun d => build_response_document env resource rd ef d none)
      (env.data_find resource { req with if_modified_since := none } lookup).docs with
  | none =>
    simp only [homap] at h
    exact GetResult.noConfusion h
  | some documents =>
    simp only [homap] at h
    cases hcl : collect_last_update documents epochV with
    | none =>
      simp only [hcl] at h
      exact GetResult.noConfusion h
    | some last_update =>
      simp only [hcl, GetResult.ok.injEq] at h
      exact ⟨h.2.2.2.symm, h.2.2.1.symm⟩

theorem C4_collection_ims_preflight (env : Env) (resource : String) (rd : ResourceDef)
    (req : PReq) (lookup : Doc) (t : Val)
    (hdom : env.domain resource = some rd)
    (hims : req.if_modified_since = some t)
    (hcount : (env.data_find resource { req with max_results := 1 } lookup).count = 0) :
    (env.is_empty resource = false →
       get env resource req lookup = GetResult.ok (Body.obj []) none none 304) ∧
    (env.is_empty resource = true →
       get env resource req lookup =
         get env resource { req with if_modified_since := none } lookup ∧
       ∀ b lm et s,
         get env resource { req with if_modified_since := none } lookup =
           GetResult.ok b lm et s → s = 200 ∧ et = none) := by
  constructor
  · intro hemp
    rw [hims] at hcount
    simp [get, hdom, hims, hcount, hemp]
  · intro hemp
    refine ⟨?_, ?_⟩
    · simp only [get, hdom, hims, hemp]
      simp only [Bool.true_eq_false, and_false, if_false]
      rfl
    · intro b lm et s hok
      simp only [get, hdom] at hok
      exact get_collection_full_status env resource rd _ lookup _ b lm et s hok

/-- C4 environment: empty probe result on a non-empty datasource. -/
def envW4 : Env := { baseEnv with is_empty := fun _ => false }

/-- Claim C4 witness:  A concrete if-modified-since collection fetch whose
probe matches nothing on a non-empty datasource returns the bare 304. -/
theorem C4_collection_ims_preflight_witness :
    get envW4 "people" reqC1 [] = GetResult.ok (Body.obj []) none none 304 :=
  (C4_collection_ims_preflight envW4 "people" baseRd reqC1 [] (Val.vint 9)
    rfl rfl rfl).1 rfl

/-- Claim C8:  When conditional matching is enabled, the ETag attached by
`_build_response_document` is `document_etag` of exactly the
timestamp-stamped document — before the self link, version number, media
payloads and embedded documents are attached (none of which disturb it). -/
theorem C8_etag_over_stamped_state (env : Env) (resource : String) (rd : ResourceDef)
    (embedded_fields : List String) (document : Doc) (latest_doc : Option Doc)
    (him : env.if_match = true)
    (hmedia : ETAG ∉ rd.media_fields)
    (hembed : ETAG ∉ embedded_fields) :
    ∀ out, build_response_document env resource rd embedded_fields document latest_doc
        = some out →
      alookup out ETAG = some (env.document_etag (stamp_dates document)) := by
  intro out h
  simp only [build_response_document, him, if_true] at h
  have hd3 : alookup (dset (stamp_dates document) ETAG (env.document_etag (stamp_dates document)))
      ETAG = some (env.document_etag (stamp_dates document)) := by
    rw [alookup_dset, if_pos rfl]
  set d3 := dset (stamp_dates document) ETAG (env.document_etag (stamp_dates document)) with hd3def
  have hembed' : ∀ f ∈ embedded_fields, f ≠ ETAG := fun f hf he => hembed (he ▸ hf)
  have step45 : ∀ d4 : Doc, alookup d4 ETAG = some (env.document_etag (stamp_dates document)) →
      ∀ dout, resolve_embedded_documents env rd
          (resolve_media_files env rd
            (match latest_doc with
             | none => resolve_document_version env rd d4 "GET/latest" none
             | some l => resolve_document_version env rd d4 "GET/other" (some l)))
          embedded_fields = some dout →
        alookup dout ETAG = some (env.document_etag (stamp_dates document)) := by
    intro d4 h4 dout hout
    have hver : ∀ mode lx, alookup (resolve_document_version env rd d4 mode lx) ETAG
        = alookup d4 ETAG := by
      intro mode lx
      unfold resolve_document_version
      by_cases hv : rd.versioning = true
      · simp only [hv, if_true]
        rw [alookup_dset, if_neg (by decide : ¬ VERSION = ETAG)]
      · simp [hv]
    rw [resolve_embedded_documents_preserves env rd embedded_fields ETAG hembed' _ dout hout]
    cases latest_doc with
    | none =>
      rw [resolve_media_files_preserves env rd _ ETAG hmedia, hver, h4]
    | some l =>
      rw [resolve_media_files_preserves env rd _ ETAG hmedia, hver, h4]
  by_cases hh : rd.hateoas = true
  · simp only [hh, if_true] at h
    cases hlk : alookup d3 rd.item_lookup_field with
    | none =>
      rw [hlk] at h
      exact Option.noConfusion h
    | some lv =>
      rw [hlk] at h
      simp only [Option.map_some'] at h
      refine step45 _ ?_ out h
      rw [alookup_dset, if_neg (by decide : ¬ LINKS = ETAG), hd3]
  · simp only [hh] at h
    simp only [Bool.false_eq_true, if_false] at h
    exact step45 d3 hd3 out h

/-- The enriched document of the C8 witness. -/
def outW8 : Doc :=
  [(ID_FIELD, Val.vint 1), (DATE_CREATED, Val.vint 1), (LAST_UPDATED, Val.vint 5),
   (ETAG, Val.vint 3)]

/-- Claim C8 witness:  On a concrete document the attached ETag equals the
collaborator hash of the timestamp-stamped state. -/
theorem C8_etag_over_stamped_state_witness :
    alookup outW8 ETAG = some (baseEnv.document_etag (stamp_dates docC1)) :=
  C8_etag_over_stamped_state baseEnv "people" baseRd [] docC1 none rfl
    (by decide) (by decide) outW8 rfl

/-- Synthesize-then-enrich, the per-delta transformation of the
all-versions loop. -/
def synth_enrich (env : Env) (resource : String) (rd : ResourceDef)
    (embedded_fields : List String) (latest_doc : Doc) (delta : Doc) : Option Doc :=
  (synthesize_previous_version env rd latest_doc delta).bind
    (fun d0 => build_response_document env resource rd embedded_fields d0 (some latest_doc))

/-- The diff sequence over already-synthesized documents: each element is
the diff of the running predecessor against the next document. -/
def diff_chain (env : Env) (rd : ResourceDef) : Doc → List Doc → List Doc
  | _, [] => []
  | last, e :: t => env.diff_document rd last e :: diff_chain env rd e t

theorem diff_chain_length (env : Env) (rd : ResourceDef) (last : Doc) (es : List Doc) :
    (diff_chain env rd last es).length = es.length := by
  induction es generalizing last with
  | nil => rfl
  | cons e t ih => simp [diff_chain, ih]

theorem diff_chain_getD (env : Env) (rd : ResourceDef) (es : List Doc) :
    ∀ (last : Doc) (k : Nat), k < es.length →
      (diff_chain env rd last es).getD k [] =
        env.diff_document rd (if k = 0 then last else es.getD (k - 1) []) (es.getD k []) := by
  induction es with
  | nil =>
    intro last k hk
    exact absurd hk (Nat.not_lt_zero _)
  | cons e t ih =>
    intro last k hk
    cases k with
    | zero => simp [diff_chain]
    | succ m =>
      simp only [diff_chain, List.getD_cons_succ]
      rw [ih e m (Nat.lt_of_succ_lt_succ hk)]
      cases m with
      | zero => simp
      | succ n => simp [List.getD_cons_succ]

theorem omap_length (f : Doc → Option Doc) :
    ∀ l l', omap f l = some l' → l'.length = l.length := by
  intro l
  induction l with
  | nil =>
    intro l' h
    simp only [omap, Option.some.injEq] at h
    subst h
    rfl
  | cons a t ih =>
    intro l' h
    cases h1 : f a with
    | none =>
      simp only [omap, h1] at h
      exact Option.noConfusion h
    | some b =>
      cases h2 : omap f t with
      | none =>
        simp only [omap, h1, h2] at h
        exact Option.noConfusion h
      | some t' =>
        simp only [omap, h1, h2, Option.some.injEq] at h
        subst h
        simp [ih t' h2]

theorem all_versions_loop_tail (env : Env) (resource : String) (rd : ResourceDef)
    (embedded_fields : List String) (latest_doc : Doc) :
    ∀ (deltas es : List Doc) (last : Doc) (i : Nat), i ≠ 0 →
      omap (synth_enrich env resource rd embedded_fields latest_doc) deltas = some es →
      all_versions_loop env resource rd embedded_fields latest_doc true last i deltas =
        some (diff_chain env rd last es) := by
  intro deltas
  induction deltas with
  | nil =>
    intro es last i hi hE
    simp only [omap, Option.some.injEq] at hE
    subst hE
    rfl
  | cons delta rest ih =>
    intro es last i hi hE
    cases hE1 : synth_enrich env resource rd embedded_fields latest_doc delta with
    | none =>
      simp only [omap, hE1] at hE
      exact Option.noConfusion hE
    | some e =>
      cases hE2 : omap (synth_enrich env resource rd embedded_fields latest_doc) rest with
      | none =>
        simp only [omap, hE1, hE2] at hE
        exact Option.noConfusion hE
      | some tes =>
        simp only [omap, hE1, hE2, Option.some.injEq] at hE
        subst hE
        cases hs : synthesize_previous_version env rd latest_doc delta with
        | none =>
          simp only [synth_enrich, hs, Option.none_bind] at hE1
          exact Option.noConfusion hE1
        | some d0 =>
          have hb : build_response_document env resource rd embedded_fields d0
              (some latest_doc) = some e := by
            simpa only [synth_enrich, hs, Option.some_bind] using hE1
          simp only [all_versions_loop, hs, hb, if_true]
          simp only [if_neg hi]
          rw [ih tes e (i + 1) (Nat.succ_ne_zero i) hE2]
          rfl

theorem all_versions_loop_diffs_cons (env : Env) (resource : String) (rd : ResourceDef)
    (embedded_fields : List String) (latest_doc : Doc) (deltas : List Doc)
    (e : Doc) (tes : List Doc)
    (hE : omap (synth_enrich env resource rd embedded_fields latest_doc) deltas
        = some (e :: tes)) :
    all_versions_loop env resource rd embedded_fields latest_doc true [] 0 deltas =
      some (e :: diff_chain env rd e tes) := by
  cases deltas with
  | nil =>
    simp only [omap, Option.some.injEq] at hE
    exact List.noConfusion hE
  | cons delta rest =>
    cases hE1 : synth_enrich env resource rd embedded_fields latest_doc delta with
    | none =>
      simp only [omap, hE1] at hE
      exact Option.noConfusion hE
    | some e' =>
      cases hE2 : omap (synth_enrich env resource rd embedded_fields latest_doc) rest with
      | none =>
        simp only [omap, hE1, hE2] at hE
        exact Option.noConfusion hE
      | some tes' =>
        simp only [omap, hE1, hE2, Option.some.injEq, List.cons.injEq] at hE
        obtain ⟨rfl, rfl⟩ := hE
        cases hs : synthesize_previous_version env rd latest_doc delta with
        | none =>
          simp only [synth_enrich, hs, Option.none_bind] at hE1
          exact Option.noConfusion hE1
        | some d0 =>
          have hb : build_response_document env resource rd embedded_fields d0
              (some latest_doc) = some e' := by
            simpa only [synth_enrich, hs, Option.some_bind] using hE1
          simp only [all_versions_loop, hs, hb, if_true, if_pos rfl]
          rw [all_versions_loop_tail env resource rd embedded_fields latest_doc rest tes' e' 1
            Nat.one_ne_zero hE2]

/-- Claim C7:  In `diffs` mode over an ascending run of deltas, whenever
every delta synthesizes and enriches successfully (to the sequence `es`),
the emitted list has element 0 equal to the first synthesized-and-enriched
version and element `k > 0` equal to
`diff_document(resource_def, es[k-1], es[k])` — the structural diff of
the immediately preceding synthesized document against the k-th. -/
theorem C7_diffs_sequence (env : Env) (resource : String) (rd : ResourceDef)
    (embedded_fields : List String) (latest_doc : Doc) (deltas es : List Doc)
    (hE : omap (synth_enrich env resource rd embedded_fields latest_doc) deltas = some es) :
    ∀ out, all_versions_loop env resource rd embedded_fields latest_doc true [] 0 deltas =
        some out →
      out.length = es.length ∧
      (0 < es.length → out.getD 0 [] = es.getD 0 []) ∧
      (∀ k, 0 < k → k < es.length →
        out.getD k [] = env.diff_document rd (es.getD (k - 1) []) (es.getD k [])) := by
  intro out hout
  cases es with
  | nil =>
    have hdel : deltas = [] := by
      have hlen := omap_length _ deltas [] hE
      cases deltas with
      | nil => rfl
      | cons a t => exact absurd hlen (by simp)
    subst hdel
    simp only [all_versions_loop, Option.some.injEq] at hout
    subst hout
    refine ⟨rfl, ?_, ?_⟩
    · intro h0
      exact absurd h0 (by simp)
    · intro k hk0 hk
      exact absurd hk (Nat.not_lt_zero _)
  | cons e tes =>
    rw [all_versions_loop_diffs_cons env resource rd embedded_fields latest_doc deltas e tes hE,
      Option.some.injEq] at hout
    subst hout
    refine ⟨by simp [diff_chain_length], fun _ => rfl, ?_⟩
    intro k hk0 hk
    cases k with
    | zero => exact absurd hk0 (by simp)
    | succ m =>
      simp only [List.getD_cons_succ]
      rw [diff_chain_getD env rd tes e m (Nat.lt_of_succ_lt_succ hk)]
      cases m with
      | zero => simp
      | succ n => simp [List.getD_cons_succ]

/-- C7 witness data: a versioned resource, a latest document, two deltas
in ascending order, and their synthesized-and-enriched forms. -/
def rdW7 : ResourceDef := { baseRd with versioning := true, versioned := ["name"] }

/-- C7 environment (`IF_MATCH` off to keep documents small). -/
def envW7 : Env := { baseEnv with if_match := false }

/-- Latest document for C7. -/
def latestW7 : Doc := [(ID_FIELD, Val.vint 1), ("name", Val.vstr "cur")]

/-- First (oldest) delta. -/
def deltaA7 : Doc := [("_id_document", Val.vint 1), ("name", Val.vstr "v1")]

/-- Second delta. -/
def deltaB7 : Doc := [("_id_document", Val.vint 1), ("name", Val.vstr "v2")]

/-- Synthesized-and-enriched version 1. -/
def e1W7 : Doc :=
  [(ID_FIELD, Val.vint 1), ("name", Val.vstr "v1"), (DATE_CREATED, Val.vint 0),
   (LAST_UPDATED, Val.vint 0), (VERSION, Val.vstr "GET/other")]

/-- Synthesized-and-enriched version 2. -/
def e2W7 : Doc :=
  [(ID_FIELD, Val.vint 1), ("name", Val.vstr "v2"), (DATE_CREATED, Val.vint 0),
   (LAST_UPDATED, Val.vint 0), (VERSION, Val.vstr "GET/other")]

/-- The list emitted by the loop in `diffs` mode on that data. -/
def outW7 : List Doc :=
  [e1W7, [("prior", Val.vobj e1W7), ("current", Val.vobj e2W7)]]

/-- Claim C7 witness:  On the concrete run: element 0 is the full first
synthesized version and element 1 is the diff of version 1 against
version 2. -/
theorem C7_diffs_sequence_witness :
    outW7.getD 0 [] = e1W7 ∧
    outW7.getD 1 [] = envW7.diff_document rdW7 e1W7 e2W7 :=
  have hth := C7_diffs_sequence envW7 "people" rdW7 [] latestW7 [deltaA7, deltaB7]
    [e1W7, e2W7] rfl
  ⟨(hth outW7 rfl).2.1 (by decide), (hth outW7 rfl).2.2 1 (by decide) (by decide)⟩

theorem build_version_other (env : Env) (resource : String) (rd : ResourceDef)
    (embedded_fields : List String) (document : Doc) (l : Doc)
    (hobs : ∀ rdx dx mx lx, env.version_value rdx dx mx lx = Val.vstr mx)
    (hver : rd.versioning = true)
    (hmedia : VERSION ∉ rd.media_fields)
    (hembed : VERSION ∉ embedded_fields) :
    ∀ out, build_response_document env resource rd embedded_fields document (some l)
        = some out →
      alookup out VERSION = some (Val.vstr "GET/other") := by
  have htail : ∀ (d4 dout : Doc),
      resolve_embedded_documents env rd
        (resolve_media_files env rd (resolve_document_version env rd d4 "GET/other" (some l)))
        embedded_fields = some dout →
      alookup dout VERSION = some (Val.vstr "GET/other") := by
    intro d4 dout hout
    have hembed' : ∀ f ∈ embedded_fields, f ≠ VERSION := fun f hf he => hembed (he ▸ hf)
    rw [resolve_embedded_documents_preserves env rd embedded_fields VERSION hembed' _ dout hout,
      resolve_media_files_preserves env rd _ VERSION hmedia]
    unfold resolve_document_version
    rw [hver, if_pos rfl, alookup_dset, if_pos rfl, hobs]
  intro out h
  simp only [build_response_document] at h
  split at h
  · exact Option.noConfusion h
  · exact htail _ out h

theorem getitem_links_version (env : Env) (rd : ResourceDef) (resource : String)
    (r : Doc) (lm : Val) (et : Option Val) :
    ∀ b lm' et' s, getitem_links env rd resource (Body.obj r) lm et
        = GetResult.ok (Body.obj b) lm' et' s →
      alookup b VERSION = alookup r VERSION := by
  intro b lm' et' s h
  cases hhat : rd.hateoas with
  | false =>
    simp only [getitem_links, hhat, Bool.false_eq_true, if_false,
      GetResult.ok.injEq, Body.obj.injEq] at h
    rw [h.1]
  | true =>
    cases halk : alookup r LINKS with
    | none =>
      simp only [getitem_links, hhat, if_true, halk,
        GetResult.ok.injEq, Body.obj.injEq] at h
      rw [← h.1, alookup_dset, if_neg (by decide : ¬ LINKS = VERSION)]
    | some v =>
      cases v with
      | vobj m =>
        simp only [getitem_links, hhat, if_true, halk,
          GetResult.ok.injEq, Body.obj.injEq] at h
        rw [← h.1, alookup_dset, if_neg (by decide : ¬ LINKS = VERSION)]
      | vnull =>
        simp only [getitem_links, hhat, if_true, halk] at h
        exact GetResult.noConfusion h
      | vint n =>
        simp only [getitem_links, hhat, if_true, halk] at h
        exact GetResult.noConfusion h
      | vstr s' =>
        simp only [getitem_links, hhat, if_true, halk] at h
        exact GetResult.noConfusion h
      | vbool b' =>
        simp only [getitem_links, hhat, if_true, halk] at h
        exact GetResult.noConfusion h
      | varr a =>
        simp only [getitem_links, hhat, if_true, halk] at h
        exact GetResult.noConfusion h

theorem getitem_body_version (env : Env) (rd : ResourceDef) (resource : String)
    (req : PReq) (ef : List String) (lookup latest document : Doc) (lm : Val)
    (et : Option Val)
    (hA : ∀ i d, alookup (env.on_fetch_item resource i d) VERSION = alookup d VERSION)
    (hB : ∀ i d, alookup (env.on_fetch_item_t rd.item_title i d) VERSION = alookup d VERSION) :
    ∀ b lm' et' s,
      getitem_body env rd resource req ef lookup latest document lm et false false
        = GetResult.ok (Body.obj b) lm' et' s →
      alookup b VERSION = alookup document VERSION := by
  intro b lm' et' s h
  simp only [getitem_body, Bool.false_eq_true, if_false] at h
  cases hid : alookup document ID_FIELD with
  | none =>
    simp only [hid] at h
    exact GetResult.noConfusion h
  | some idv =>
    simp only [hid] at h
    cases hid2 : alookup (env.on_fetch_item resource idv document) ID_FIELD with
    | none =>
      simp only [hid2] at h
      exact GetResult.noConfusion h
    | some idv2 =>
      simp only [hid2] at h
      rw [getitem_links_version env rd resource _ lm et b lm' et' s h, hB, hA]

theorem getitem_after_cond_version (env : Env) (rd : ResourceDef) (resource : String)
    (req : PReq) (ef : List String) (lookup latest document : Doc) (lm : Val)
    (et : Option Val)
    (hA : ∀ i d, alookup (env.on_fetch_item resource i d) VERSION = alookup d VERSION)
    (hB : ∀ i d, alookup (env.on_fetch_item_t rd.item_title i d) VERSION = alookup d VERSION) :
    ∀ b lm' et',
      getitem_after_cond env rd resource req ef lookup latest document lm et false false
        = GetResult.ok (Body.obj b) lm' et' 200 →
      alookup b VERSION = alookup document VERSION := by
  intro b lm' et' h
  cases hims : req.if_modified_since with
  | none =>
    simp only [getitem_after_cond, hims] at h
    exact getitem_body_version env rd resource req ef lookup latest document lm et hA hB
      b lm' et' 200 h
  | some t =>
    simp only [getitem_after_cond, hims] at h
    by_cases hle : vle lm t = true
    · simp only [hle, if_true] at h
      cases het : alookup document ETAG with
      | none =>
        simp only [het] at h
        exact GetResult.noConfusion h
      | some e =>
        simp only [het, GetResult.ok.injEq] at h
        exact absurd h.2.2.2 (by decide)
    · simp only [if_neg hle] at h
      exact getitem_body_version env rd resource req ef lookup latest document lm et hA hB
        b lm' et' 200 h

/-- Claim C2 (amended):  In the item fetch flow the deep-copied latest
document is always passed to enrichment (get.py line 232), so
`resolve_document_version` is always invoked in `'GET/other'` mode —
even when no historical version was synthesized.  Stated for the
plain-fetch path (`?version=` absent) through an environment whose
version-number collaborator records the mode, with hooks/media/embeds
that do not overwrite the version field. -/
theorem C2_version_mode_always_other (env : Env) (resource : String) (rd : ResourceDef)
    (req : PReq) (lookup : Doc)
    (hdom : env.domain resource = some rd)
    (hobs : ∀ rdx dx mx lx, env.version_value rdx dx mx lx = Val.vstr mx)
    (hver : rd.versioning = true)
    (hmedia : VERSION ∉ rd.media_fields)
    (hembed : VERSION ∉ resolve_embedded_fields rd req.embedded)
    (hA : ∀ i d, alookup (env.on_fetch_item resource i d) VERSION = alookup d VERSION)
    (hB : ∀ i d, alookup (env.on_fetch_item_t rd.item_title i d) VERSION = alookup d VERSION) :
    ∀ b lm et, getitem env resource req none lookup = GetResult.ok (Body.obj b) lm et 200 →
      alookup b VERSION = some (Val.vstr "GET/other") := by
  intro b lm et h
  cases hfind : env.data_find_one resource (some req) lookup with
  | none =>
    simp only [getitem, hdom, hfind] at h
    exact GetResult.noConfusion h
  | some document0 =>
    simp only [getitem, hdom, hfind, version_select, hver, eq_self_iff_true, if_true,
      getitem_enriched] at h
    cases hbuild : build_response_document env resource rd
        (resolve_embedded_fields rd req.embedded) document0 (some document0) with
    | none =>
      simp only [hbuild] at h
      exact GetResult.noConfusion h
    | some d1 =>
      simp only [hbuild] at h
      have hv1 : alookup d1 VERSION = some (Val.vstr "GET/other") :=
        build_version_other env resource rd _ document0 document0 hobs hver hmedia hembed
          d1 hbuild
      cases hlu : alookup d1 LAST_UPDATED with
      | none =>
        simp only [hlu] at h
        exact GetResult.noConfusion h
      | some lmv =>
        simp only [hlu] at h
        cases him : env.if_match with
        | false =>
          simp only [him, Bool.false_eq_true, if_false] at h
          rw [getitem_after_cond_version env rd resource req _ lookup document0 d1 lmv
            none hA hB b lm et h, hv1]
        | true =>
          simp only [him, if_true] at h
          cases het : alookup d1 ETAG with
          | none =>
            simp only [het] at h
            exact GetResult.noConfusion h
          | some etv =>
            simp only [het] at h
            cases hinm : req.if_none_match with
            | none =>
              simp only [hinm] at h
              rw [getitem_after_cond_version env rd resource req _ lookup document0 d1 lmv
                (some etv) hA hB b lm et h, hv1]
            | some inm =>
              simp only [hinm] at h
              by_cases hveq : veq etv inm = true
              · simp only [hveq, if_true, GetResult.ok.injEq] at h
                exact absurd h.2.2.2 (by decide)
              · simp only [if_neg hveq] at h
                rw [getitem_after_cond_version env rd resource req _ lookup document0 d1 lmv
                  (some etv) hA hB b lm et h, hv1]

/-- The response body of the C2 amended-claim witness. -/
def bC2W : Doc :=
  [(ID_FIELD, Val.vint 1), (DATE_CREATED, Val.vint 1), (LAST_UPDATED, Val.vint 5),
   (VERSION, Val.vstr "GET/other")]

/-- Claim C2 (amended) witness:  On the concrete no-selector fetch, the
version field of the 200 body records `GET/other`. -/
theorem C2_version_mode_always_other_witness :
    alookup bC2W VERSION = some (Val.vstr "GET/other") :=
  C2_version_mode_always_other envC2 "people" rdC2 baseReq [(ID_FIELD, Val.vint 1)]
    rfl (fun _ _ _ _ => rfl) rfl (by decide) (by decide)
    (fun _ _ => rfl) (fun _ _ => rfl)
    bC2W (some (Val.vint 5)) none rfl

/-- Claim C6 witness:  On the concrete heap, the dict at the latest
document's address is unchanged by the call. -/
theorem C6_synthesize_does_not_mutate_latest_witness :
    (match synthesize_previous_version_heap baseEnv rdW5 heapW6 0 1 with
     | some p => p.1.mem 0 = heapW6.mem 0
     | none => False) := by
  have hsome : (synthesize_previous_version_heap baseEnv rdW5 heapW6 0 1).isSome = true := rfl
  cases heq : synthesize_previous_version_heap baseEnv rdW5 heapW6 0 1 with
  | none => rw [heq] at hsome; exact Bool.noConfusion hsome
  | some p =>
    exact C6_synthesize_does_not_mutate_latest baseEnv rdW5 heapW6 0 1
      (by decide) (by decide) p.1 p.2 (by rw [heq])

end Eve
